import Mathlib

/-!
Verification development for the ETF holdings scraper (`src/scraper.py`).

The scraper's core pipeline is embedded shallowly:

* a pandas `DataFrame` becomes `Frame`: an ordered list of labelled columns,
  each column an ordered list of `Cell`s (a cell is a string, a number, or NaN);
* `clean_dataframe` (scraper.py lines 104-155) becomes `clean_dataframe`
  below, returning `CleanResult`: `exn` models an uncaught Python exception,
  `failed` models a `return None`, `table` models a returned DataFrame with
  the canonical columns `ETF_Ticker, ticker, name, weight, Date_Scraped`;
* `find_first_trust_table` (lines 82-102) becomes `find_first_trust_table`;
* the per-fund save/quality-gate/failure logic of `main` (lines 408-442)
  becomes `saveStep`/`runAll`;
* numbers are `ℚ` (pandas floats), with `Option ℚ` for a possibly-NaN
  parsed weight (`none` = NaN).

The `SourceReconciler` described by the specification has no implementation
in `src/`; it is modelled from the spec where marked.
-/

/-- ASCII lower-casing of one character (`str.lower()`; all data in this
development is ASCII). -/
def charLower (c : Char) : Char :=
  if 65 ≤ c.toNat && c.toNat ≤ 90 then Char.ofNat (c.toNat + 32) else c

/-- ASCII upper-casing of one character (`str.upper()`). -/
def charUpper (c : Char) : Char :=
  if 97 ≤ c.toNat && c.toNat ≤ 122 then Char.ofNat (c.toNat - 32) else c

/-- `str.lower()`. -/
def lowerStr (s : String) : String :=
  ⟨s.data.map charLower⟩

/-- `str.upper()`. -/
def upperStr (s : String) : String :=
  ⟨s.data.map charUpper⟩

/-- `str.strip()`: drop whitespace from both ends. -/
def stripStr (s : String) : String :=
  ⟨((s.data.dropWhile Char.isWhitespace).reverse.dropWhile Char.isWhitespace).reverse⟩

/-- Left-to-right, non-overlapping replacement of the (non-empty) pattern
`pat` by `rep`, with fuel for structural recursion; each step consumes at
least one character, so `fuel = length of the input` suffices. -/
def replaceSeg (pat rep : List Char) : Nat → List Char → List Char
  | _, [] => []
  | 0, cs => cs
  | fuel + 1, c :: cs =>
    if pat.isPrefixOf (c :: cs) then
      rep ++ replaceSeg pat rep fuel (List.drop (pat.length - 1) cs)
    else
      c :: replaceSeg pat rep fuel cs

/-- Python `str.replace(pat, rep)`: replaces every (non-overlapping)
occurrence, scanning left to right.  The patterns used by the scraper are
all non-empty, so the empty-pattern case is immaterial. -/
def replaceStr (s pat rep : String) : String :=
  if pat.data.isEmpty then s
  else ⟨replaceSeg pat.data rep.data s.data.length s.data⟩

/-- A pandas cell: a string, a float (modelled as `ℚ`), or NaN. -/
inductive Cell where
  | str (s : String)
  | num (q : ℚ)
  | nan
deriving DecidableEq, Repr

/-- Python `str(cell)` as applied by `astype(str)`.  NaN stringifies to
`"nan"`.  For floats we render integers the way Python does (`"6.0"`);
non-integral floats never reach `cellStr` in any statement below, so the
placeholder rational rendering is unexercised. -/
def cellStr : Cell → String
  | .str s => s
  | .num q => if q.den = 1 then toString q.num ++ ".0" else toString q
  | .nan => "nan"

/-- A pandas DataFrame: ordered labelled columns of cells. -/
structure Frame where
  cols : List (String × List Cell)
deriving DecidableEq, Repr

/-- `df.empty`: no columns, or a first column with no rows. -/
def frameEmpty (df : Frame) : Bool :=
  match df.cols with
  | [] => true
  | c :: _ => c.2.isEmpty

/-- `str(c).strip().lower()` applied to a column label (line 110). -/
def normLabel (l : String) : String :=
  lowerStr (stripStr l)

/-- The exact-key rename map of lines 112-120 (`col_map`).  `df.rename`
matches labels exactly, not by substring. -/
def col_map : List (String × String) :=
  [("stockticker", "ticker"), ("symbol", "ticker"), ("holding", "ticker"),
   ("ticker", "ticker"), ("identifier", "ticker"), ("sedol", "ticker"),
   ("securityname", "name"), ("company", "name"), ("security name", "name"),
   ("security_name", "name"), ("security", "name"), ("name", "name"),
   ("weightings", "weight"), ("% tna", "weight"), ("weight", "weight"),
   ("% of net assets", "weight"), ("weighting", "weight"),
   ("%_of_net_assets", "weight"), ("% net assets", "weight")]

/-- Rename one label through `col_map`, leaving unmapped labels unchanged. -/
def renameLabel (l : String) : String :=
  match col_map.find? (fun p => p.1 == l) with
  | some p => p.2
  | none => l

/-- `df.loc[:, ~df.columns.duplicated()]` (line 122): keep, in order, only
the first column bearing each label. -/
def dedupCols : List (String × List Cell) → List (String × List Cell)
  | [] => []
  | c :: rest => c :: (dedupCols rest).filter (fun d => d.1 ≠ c.1)

/-- Lines 110-122: lower-case/trim every label, rename through `col_map`,
then drop duplicate labels keeping the first occurrence. -/
def mappedCols (df : Frame) : List (String × List Cell) :=
  dedupCols (df.cols.map (fun c => (renameLabel (normLabel c.1), c.2)))

/-- First column with the given label, if any (`df[l]`). -/
def lookupCol (l : String) (cols : List (String × List Cell)) : Option (List Cell) :=
  match cols.find? (fun c => c.1 == l) with
  | some c => some c.2
  | none => none

/-- `l in df.columns`. -/
def hasCol (l : String) (cols : List (String × List Cell)) : Bool :=
  cols.any (fun c => c.1 == l)

/-- The stop-word list of lines 128-129.  (The regex alternation built from
it on line 134 contains no regex metacharacters, so it is a plain substring
disjunction.) -/
def stop_words : List String :=
  ["cash", "usd", "liquidity", "government", "treasury",
   "money market", "net other", "total"]

/-- Does `needle` occur as a contiguous segment of `hay`? -/
def isSegmentOf (needle : List Char) : List Char → Bool
  | [] => needle.isEmpty
  | c :: cs => needle.isPrefixOf (c :: cs) || isSegmentOf needle cs

/-- `Series.str.contains(pattern, case=False)` for one value: does the
lower-cased string contain some stop word as a substring? -/
def containsStop (s : String) : Bool :=
  stop_words.any (fun w => isSegmentOf w.data (lowerStr s).data)

/-- The row-keeping mask `~mask` of lines 135-137, computed from the
stringified `name` and `ticker` columns: keep a row iff neither field
matches a stop word. -/
def keepMask (names tickers : List String) : List Bool :=
  (names.zip tickers).map (fun p => !(containsStop p.1 || containsStop p.2))

/-- Filter a column by a boolean mask (`df[~mask]`, columnwise). -/
def maskFilter : List Bool → List α → List α
  | k :: ks, x :: xs => if k then x :: maskFilter ks xs else maskFilter ks xs
  | _, _ => []

/-- Ticker normalization of lines 139-141: replace every occurrence of
`" USD"`, then every occurrence of `".UN"` (both case-sensitive,
`regex=False` replaces all occurrences, not just trailing ones), then
upper-case and strip. -/
def normTicker (t : String) : String :=
  stripStr (upperStr (replaceStr (replaceStr t " USD" "") ".UN" ""))

/-- Numeric value of a digit run. -/
def digitsVal (ds : List Char) : Nat :=
  ds.foldl (fun n c => 10 * n + (c.toNat - 48)) 0

/-- `pd.to_numeric(s, errors="coerce")` on a string: optional sign, digits,
optional decimal point — anything else coerces to NaN (`none`).  Scientific
notation is not modelled; no input in this development uses it. -/
def parseDecimal (s : String) : Option ℚ :=
  let cs := (stripStr s).data
  let signBody : Bool × List Char :=
    match cs with
    | '-' :: rest => (true, rest)
    | '+' :: rest => (false, rest)
    | _ => (false, cs)
  let ip := signBody.2.takeWhile Char.isDigit
  let rest := signBody.2.dropWhile Char.isDigit
  let val : Option ℚ :=
    match rest with
    | [] => if ip.isEmpty then none else some (digitsVal ip : ℚ)
    | '.' :: fp =>
      if fp.all Char.isDigit && (!ip.isEmpty || !fp.isEmpty) then
        some ((digitsVal ip : ℚ) + (digitsVal fp : ℚ) / (10 : ℚ) ^ fp.length)
      else none
    | _ => none
  val.map (fun v => if signBody.1 then -v else v)

/-- Lines 143-146 applied to one weight cell: strings are stripped of `%`
and `,` then parsed (`to_numeric(errors="coerce")`); floats pass through
(the `astype(str)` round-trip on a float is the identity); NaN stays NaN. -/
def parseWeight : Cell → Option ℚ
  | .str s => parseDecimal (replaceStr (replaceStr s "%" "") "," "")
  | .num q => some q
  | .nan => none

/-- Maximum of a list of rationals (`none` on the empty list). -/
def listMax : List ℚ → Option ℚ
  | [] => none
  | x :: xs => some (xs.foldl max x)

/-- `Series.max()` with NaN skipped (pandas `skipna=True`); an all-NaN or
empty column yields NaN (`none`). -/
def maxW (ws : List (Option ℚ)) : Option ℚ :=
  listMax (ws.filterMap id)

/-- The `df["weight"].max() > 1.0` test of line 147 (`NaN > 1.0` is false). -/
def scaleCond (ws : List (Option ℚ)) : Bool :=
  match maxW ws with
  | some m => decide (1 < m)
  | none => false

/-- Lines 147-148: if the column maximum exceeds 1.0, divide every value by
100 (NaN stays NaN); otherwise leave the column unchanged. -/
def scaleWeights (ws : List (Option ℚ)) : List (Option ℚ) :=
  if scaleCond ws then ws.map (Option.map (fun q => q / 100)) else ws

/-- One row of the canonical output table. -/
structure Row where
  ticker : String
  name : String
  weight : Option ℚ
deriving DecidableEq, Repr

/-- The canonical table returned by `clean_dataframe` (line 155): the
constant `ETF_Ticker` and `Date_Scraped` columns plus the per-row data. -/
structure CleanTable where
  etf : String
  date : String
  rows : List Row
deriving DecidableEq, Repr

/-- Assemble rows from the three data columns (zip semantics truncate to
the shortest list; on rectangular frames all three have equal length). -/
def zipRows3 : List String → List String → List (Option ℚ) → List Row
  | t :: ts, n :: ns, w :: ws => ⟨t, n, w⟩ :: zipRows3 ts ns ws
  | _, _, _ => []

/-- Lines 128-155 once the `ticker` and `name` columns exist: stringify,
apply the stop-word row filter, normalize tickers, then parse and scale the
weight column (or default every weight to `0.0` when the column is absent),
and emit the canonical table. -/
def buildTable (tcol ncol : List Cell) (wcol? : Option (List Cell))
    (ticker today : String) : CleanTable :=
  let names := ncol.map cellStr
  let tickers := tcol.map cellStr
  let keep := keepMask names tickers
  let names2 := maskFilter keep names
  let tickers2 := (maskFilter keep tickers).map normTicker
  let weights :=
    match wcol? with
    | some wc => scaleWeights ((maskFilter keep wc).map parseWeight)
    | none => List.replicate tickers2.length (some (0 : ℚ))
  ⟨ticker, today, zipRows3 tickers2 names2 weights⟩

/-- Outcome of `clean_dataframe`: an uncaught exception (`exn`, caught only
by the per-fund handler in `main`), a `return None` (`failed`), or a
returned table. -/
inductive CleanResult where
  | exn
  | failed
  | table (t : CleanTable)
deriving DecidableEq, Repr

/-- `clean_dataframe` after column mapping (lines 124-155).  The `ticker`
check of line 124 returns `None`; a missing `name` column raises `KeyError`
at line 131 (`df["name"].astype(str)` on an absent column). -/
def cleanCore (cols : List (String × List Cell)) (ticker today : String) : CleanResult :=
  match lookupCol "ticker" cols with
  | none => .failed
  | some tcol =>
    match lookupCol "name" cols with
    | none => .exn
    | some ncol => .table (buildTable tcol ncol (lookupCol "weight" cols) ticker today)

/-- `clean_dataframe(df, ticker)` (lines 104-155).  `TODAY` (line 24) is
threaded as the explicit `today` parameter. -/
def clean_dataframe (df? : Option Frame) (ticker today : String) : CleanResult :=
  match df? with
  | none => .failed
  | some df =>
    if frameEmpty df then .failed
    else cleanCore (mappedCols df) ticker today

/-- The keyword list of `find_first_trust_table` (line 87). -/
def valid_keywords : List String :=
  ["ticker", "symbol", "holding", "identifier", "weighting", "cusip"]

/-- Line 91: does some normalized header label equal a keyword?  (`k in
cols` is exact list membership, not substring matching.) -/
def headerHasKeyword (df : Frame) : Bool :=
  valid_keywords.any (fun k => (df.cols.map (fun c => normLabel c.1)).contains k)

/-- Lines 95-96: does some normalized first-data-row value equal a
keyword? -/
def firstRowHasKeyword (df : Frame) : Bool :=
  valid_keywords.any (fun k =>
    (df.cols.filterMap (fun c => c.2.head?.map (fun x => normLabel (cellStr x)))).contains k)

/-- Lines 97-101: promote the first data row to the header — its values
become the column labels and it is removed from the data region.  (A column
with no cells keeps no promoted label; on the rectangular non-empty frames
this branch runs on, every column has a first cell.) -/
def promoteHeader (df : Frame) : Frame :=
  ⟨df.cols.map (fun c =>
    match c.2 with
    | [] => ("", [])
    | x :: xs => (cellStr x, xs))⟩

/-- `find_first_trust_table(dfs)` (lines 82-102): iterate candidates in
document order; return the first whose header holds a keyword, unchanged;
otherwise, if the candidate is non-empty and its first data row holds a
keyword, promote that row to header and return; otherwise move on.  There
is no row-count test anywhere in the function. -/
def find_first_trust_table : List Frame → Option Frame
  | [] => none
  | df :: rest =>
    if headerHasKeyword df then some df
    else if !frameEmpty df && firstRowHasKeyword df then some (promoteHeader df)
    else find_first_trust_table rest

/-! ### SourceReconciler (spec §4.5) — no implementation exists in `src/` -/

/-- Modelled from the spec: one fund's snapshot as seen from one source —
its row count and its `holdings_as_of` date, normalized `YYYY-MM-DD` so
that lexicographic string order is chronological order.  `SourceReconciler`
is described in spec §4.5 but absent from `src/scraper.py`. -/
structure Snapshot where
  rows : Nat
  asOf : String
deriving DecidableEq, Repr

/-- Modelled from the spec: the reason codes of the reconciliation decision
trail (spec §4.5). -/
inductive ReconcileReason where
  | primaryAbsentUseBackup
  | keepPrimaryNoBackup
  | smallSamplePreferBackup
  | backupNewer
  | truncatedPreviewGuard
  | keepPrimary
deriving DecidableEq, Repr

/-- Modelled from the spec: the small-sample threshold of spec §4.5 step 2
(5 rows). -/
def smallSampleThreshold : Nat := 5

/-- Modelled from the spec: the truncated-preview threshold of spec §4.5
step 3 (≈15 rows). -/
def previewThreshold : Nat := 15

/-- Modelled from the spec: "materially more" rows (spec §4.5 step 2 leaves
this unquantified; we read it as at least double).  The scenario claims
settled below never enter this branch, so any monotone reading agrees. -/
def materiallyMore (backupRows primaryRows : Nat) : Bool :=
  primaryRows * 2 ≤ backupRows

/-- Modelled from the spec: `SourceReconciler` (spec §4.5), absent from
`src/scraper.py`.  Decision policy in order: (1) primary absent or empty →
backup if present, else no result; (2) primary below the small-sample
threshold with materially more backup rows → backup; (3) backup strictly
newer → backup, unless the truncated-preview guard fires (backup at or
below the preview threshold while primary exceeds it), in which case
primary is kept with the guard recorded as the reason; (4) otherwise keep
primary. -/
def reconcile (primary backup : Option Snapshot) : Option (Snapshot × ReconcileReason) :=
  match primary, backup with
  | none, none => none
  | none, some b => some (b, .primaryAbsentUseBackup)
  | some p, backup =>
    if p.rows = 0 then
      match backup with
      | some b => some (b, .primaryAbsentUseBackup)
      | none => none
    else
      match backup with
      | none => some (p, .keepPrimaryNoBackup)
      | some b =>
        if p.rows < smallSampleThreshold && materiallyMore b.rows p.rows then
          some (b, .smallSamplePreferBackup)
        else if p.asOf < b.asOf then
          if b.rows ≤ previewThreshold && previewThreshold < p.rows then
            some (p, .truncatedPreviewGuard)
          else
            some (b, .backupNewer)
        else
          some (p, .keepPrimary)

/-! ### The per-fund save / quality-gate / failure logic of `main`
(lines 337-442) -/

/-- Failure reason codes (`class FailureReason`, lines 39-46; the subset
reachable from the save step). -/
def PARSE_ERROR : String := "PARSE_ERROR"

/-- `FailureReason.INSUFFICIENT_ROWS` (line 44). -/
def INSUFFICIENT_ROWS : String := "INSUFFICIENT_ROWS"

/-- `FailureReason.UNKNOWN` (line 46). -/
def UNKNOWN_ERROR : String := "UNKNOWN_ERROR"

/-- `MIN_INVESCO_ROWS` (line 35). -/
def MIN_INVESCO_ROWS : Nat := 30

/-- `MIN_OTHER_ROWS` (line 36). -/
def MIN_OTHER_ROWS : Nat := 5

/-- One entry of the `failures` list (lines 418-422 / 430-434). -/
structure FailureEntry where
  ticker : String
  rows : Nat
  reason : String
deriving DecidableEq, Repr

/-- The run's accumulating outputs: the per-fund files of `data/latest`
(line 424-425), the `master_list` feeding the combined master CSVs
(lines 426, 454-457), and the `failures` report (lines 418-434, 462-469). -/
structure RunState where
  latest : List (String × CleanTable)
  master : List CleanTable
  failures : List FailureEntry
deriving DecidableEq, Repr

/-- One fund's inputs to the save step: its ticker, the outcome of
`clean_dataframe`, the scrape-stage error code (if any), and the quality
threshold chosen on line 414 (`MIN_INVESCO_ROWS` for invesco scraper types,
`MIN_OTHER_ROWS` otherwise). -/
structure FundResult where
  ticker : String
  clean : CleanResult
  error : Option String
  threshold : Nat
deriving DecidableEq, Repr

/-- Lines 408-442 for one fund: if cleaning returned a non-empty table, the
quality gate may record an `INSUFFICIENT_ROWS` failure, but the table is
persisted to the latest store and appended to the master list regardless; a
`None`/empty result records a zero-row failure entry and persists nothing;
an uncaught exception is absorbed by the per-fund handler (lines 436-442)
as an `UNKNOWN_ERROR` entry. -/
def saveStep (f : FundResult) (s : RunState) : RunState :=
  match f.clean with
  | .exn =>
    { s with failures := s.failures ++ [⟨f.ticker, 0, UNKNOWN_ERROR⟩] }
  | .failed =>
    { s with failures := s.failures ++ [⟨f.ticker, 0, f.error.getD PARSE_ERROR⟩] }
  | .table t =>
    if t.rows.isEmpty then
      { s with failures := s.failures ++ [⟨f.ticker, 0, f.error.getD PARSE_ERROR⟩] }
    else
      let s1 :=
        if t.rows.length < f.threshold then
          { s with failures := s.failures ++ [⟨f.ticker, t.rows.length, f.error.getD INSUFFICIENT_ROWS⟩] }
        else s
      { s1 with latest := s1.latest ++ [(f.ticker, t)], master := s1.master ++ [t] }

/-- The fund loop of `main` (line 337): every fund is processed in turn; no
per-fund outcome interrupts the traversal. -/
def runAll (fs : List FundResult) (s : RunState) : RunState :=
  fs.foldl (fun acc f => saveStep f acc) s

/-! ### Helper lemmas -/

theorem dedupCols_nodup (cs : List (String × List Cell)) :
    ((dedupCols cs).map Prod.fst).Nodup := by
  induction cs with
  | nil => simp [dedupCols]
  | cons c rest ih =>
    simp only [dedupCols, List.map_cons, List.nodup_cons]
    refine ⟨?_, ?_⟩
    · intro hmem
      obtain ⟨d, hd, hfst⟩ := List.mem_map.1 hmem
      have hne := List.of_mem_filter hd
      simp only [decide_eq_true_eq] at hne
      exact hne hfst
    · exact List.Nodup.sublist ((List.filter_sublist _).map Prod.fst) ih

theorem lookupCol_eq_none_of_hasCol_false {l : String}
    {cols : List (String × List Cell)} (h : hasCol l cols = false) :
    lookupCol l cols = none := by
  unfold lookupCol
  rw [List.find?_eq_none.2]
  intro c hc
  have := List.any_eq_false.1 h c hc
  simpa using this

theorem lookupCol_isSome_of_hasCol_true {l : String}
    {cols : List (String × List Cell)} (h : hasCol l cols = true) :
    ∃ v, lookupCol l cols = some v := by
  unfold lookupCol
  cases hfind : List.find? (fun c => c.1 == l) cols with
  | none =>
    obtain ⟨c, hc, hl⟩ := List.any_eq_true.1 h
    exact absurd hl (by simpa using List.find?_eq_none.1 hfind c hc)
  | some c => exact ⟨c.2, rfl⟩

theorem maskFilter_length_eq {ks : List Bool} :
    ∀ {xs : List α} {ys : List β}, xs.length = ys.length →
      (maskFilter ks xs).length = (maskFilter ks ys).length := by
  induction ks with
  | nil => intro xs ys _; cases xs <;> cases ys <;> simp [maskFilter]
  | cons k ks ih =>
    intro xs ys h
    cases xs with
    | nil => cases ys with
      | nil => rfl
      | cons y ys => simp at h
    | cons x xs =>
      cases ys with
      | nil => simp at h
      | cons y ys =>
        simp only [List.length_cons, Nat.succ.injEq] at h
        cases k <;> simp [maskFilter, ih h]

theorem mem_zipRows3 {r : Row} :
    ∀ {ts ns : List String} {ws : List (Option ℚ)},
      r ∈ zipRows3 ts ns ws → r.ticker ∈ ts ∧ r.name ∈ ns ∧ r.weight ∈ ws := by
  intro ts
  induction ts with
  | nil => intro ns ws h; simp [zipRows3] at h
  | cons t ts ih =>
    intro ns ws h
    cases ns with
    | nil => simp [zipRows3] at h
    | cons n ns =>
      cases ws with
      | nil => simp [zipRows3] at h
      | cons w ws =>
        simp only [zipRows3, List.mem_cons] at h
        rcases h with h | h
        · subst h; simp
        · obtain ⟨h1, h2, h3⟩ := ih h
          exact ⟨List.mem_cons_of_mem _ h1, List.mem_cons_of_mem _ h2,
            List.mem_cons_of_mem _ h3⟩

theorem zipRows3_getElem? :
    ∀ (ts ns : List String) (ws : List (Option ℚ)) (i : Nat) (w : Option ℚ),
      ts.length = ws.length → ns.length = ws.length → ws[i]? = some w →
      ∃ t n, (zipRows3 ts ns ws)[i]? = some ⟨t, n, w⟩ := by
  intro ts
  induction ts with
  | nil =>
    intro ns ws i w hts _ hw
    cases ws with
    | nil => simp at hw
    | cons x xs => simp at hts
  | cons t ts ih =>
    intro ns ws i w hts hns hw
    cases ws with
    | nil => simp at hw
    | cons x xs =>
      cases ns with
      | nil => simp at hns
      | cons n ns =>
        simp only [List.length_cons, Nat.succ.injEq] at hts hns
        cases i with
        | zero =>
          simp only [List.getElem?_cons_zero, Option.some.injEq] at hw
          exact ⟨t, n, by simp [zipRows3, hw]⟩
        | succ j =>
          simp only [List.getElem?_cons_succ] at hw
          obtain ⟨t0, n0, h0⟩ := ih ns xs j w hts hns hw
          exact ⟨t0, n0, by simpa [zipRows3] using h0⟩

theorem zipRows3_map_ticker :
    ∀ (ts ns : List String) (ws : List (Option ℚ)),
      ts.length = ns.length → ts.length = ws.length →
      (zipRows3 ts ns ws).map Row.ticker = ts := by
  intro ts
  induction ts with
  | nil => intro ns ws _ _; simp [zipRows3]
  | cons t ts ih =>
    intro ns ws hns hws
    cases ns with
    | nil => simp at hns
    | cons n ns =>
      cases ws with
      | nil => simp at hws
      | cons w ws =>
        simp only [List.length_cons, Nat.succ.injEq] at hns hws
        simp [zipRows3, ih ns ws hns hws]

theorem maskFilter_keepMask_name {x : String} :
    ∀ {ns ts : List String}, x ∈ maskFilter (keepMask ns ts) ns →
      containsStop x = false := by
  intro ns
  induction ns with
  | nil => intro ts h; simp [keepMask, maskFilter] at h
  | cons n ns ih =>
    intro ts h
    cases ts with
    | nil => simp [keepMask, maskFilter] at h
    | cons t ts =>
      simp only [keepMask, List.zip_cons_cons, List.map_cons] at h
      cases hk : (containsStop n || containsStop t) with
      | true =>
        rw [hk] at h
        simp only [Bool.not_true, maskFilter, Bool.false_eq_true, if_false] at h
        exact ih (by simpa [keepMask] using h)
      | false =>
        rw [hk] at h
        simp only [Bool.not_false, maskFilter, if_true] at h
        rcases List.mem_cons.1 h with rfl | h
        · have := Bool.or_eq_false_iff.1 hk
          exact this.1
        · exact ih (by simpa [keepMask] using h)

theorem maskFilter_keepMask_ticker {x : String} :
    ∀ {ns ts : List String}, x ∈ maskFilter (keepMask ns ts) ts →
      containsStop x = false := by
  intro ns
  induction ns with
  | nil => intro ts h; simp [keepMask, maskFilter] at h
  | cons n ns ih =>
    intro ts h
    cases ts with
    | nil => simp [keepMask, maskFilter] at h
    | cons t ts =>
      simp only [keepMask, List.zip_cons_cons, List.map_cons] at h
      cases hk : (containsStop n || containsStop t) with
      | true =>
        rw [hk] at h
        simp only [Bool.not_true, maskFilter, Bool.false_eq_true, if_false] at h
        exact ih (by simpa [keepMask] using h)
      | false =>
        rw [hk] at h
        simp only [Bool.not_false, maskFilter, if_true] at h
        rcases List.mem_cons.1 h with rfl | h
        · have := Bool.or_eq_false_iff.1 hk
          exact this.2
        · exact ih (by simpa [keepMask] using h)

theorem listMax_mem : ∀ {l : List ℚ} {m : ℚ}, listMax l = some m → m ∈ l := by
  intro l
  induction l with
  | nil => intro m h; simp [listMax] at h
  | cons x xs ih =>
    intro m h
    simp only [listMax, Option.some.injEq] at h
    subst h
    have : ∀ (ys : List ℚ) (a : ℚ), ys.foldl max a ∈ a :: ys := by
      intro ys
      induction ys with
      | nil => intro a; simp
      | cons y ys ihy =>
        intro a
        have := ihy (max a y)
        rcases List.mem_cons.1 this with h | h
        · rcases max_choice a y with hm | hm <;> rw [List.foldl_cons, h, hm] <;> simp
        · simp [List.foldl_cons, List.mem_cons.2 (Or.inr (List.mem_cons_of_mem _ h))]
    exact this xs x

theorem maxW_le_of_all {ws : List (Option ℚ)} {m : ℚ}
    (hall : ∀ q : ℚ, some q ∈ ws → q ≤ 1) (h : maxW ws = some m) : m ≤ 1 := by
  have hm := listMax_mem (l := ws.filterMap id) h
  obtain ⟨b, hb, hid⟩ := List.mem_filterMap.1 hm
  cases b with
  | none => simp at hid
  | some q =>
    simp only [id, Option.some.injEq] at hid
    subst hid
    exact hall _ hb

theorem scaleWeights_getElem?_none {ws : List (Option ℚ)} {i : Nat}
    (h : ws[i]? = some none) : (scaleWeights ws)[i]? = some none := by
  unfold scaleWeights
  cases scaleCond ws with
  | true => simp [List.getElem?_map, h]
  | false => simpa using h

theorem scaleWeights_length (ws : List (Option ℚ)) :
    (scaleWeights ws).length = ws.length := by
  unfold scaleWeights
  cases scaleCond ws <;> simp

theorem clean_dataframe_some (df : Frame) (tk dt : String) :
    clean_dataframe (some df) tk dt
      = if frameEmpty df then .failed else cleanCore (mappedCols df) tk dt := rfl

theorem hasCol_false_of_lookupCol_none {l : String}
    {cols : List (String × List Cell)} (h : lookupCol l cols = none) :
    hasCol l cols = false := by
  cases hc : hasCol l cols with
  | false => rfl
  | true =>
    obtain ⟨v, hv⟩ := lookupCol_isSome_of_hasCol_true hc
    rw [hv] at h
    cases h

/-! ### Claim theorems -/

/-- C1, counterexample: the claim's raw table has header `"Stock Ticker"`;
`col_map` renames by exact label match only and has no key
`"stock ticker"` (only `"stockticker"`), so no column maps to `ticker` and
`clean_dataframe` returns `None` — it does not produce the claimed one-row
canonical table. -/
theorem c1_counterexample :
    clean_dataframe (some ⟨[("Stock Ticker", [.str "CASH", .str "AAPL"]),
      ("Security Name", [.str "Cash & Other", .str "Apple Inc"]),
      ("% of Net Assets", [.num 1.2, .num 6.5])]⟩) "XYZ" "2026-10-12" = .failed := by
  decide

/-- C1, amended: for a raw table whose header is
`["StockTicker", "Security Name", "% of Net Assets"]` (a ticker label that
`col_map` actually recognizes) with rows `("CASH", "Cash & Other", 1.2)`
and `("AAPL", "Apple Inc", 6.5)`, the cleaning step produces exactly one
row with ticker `AAPL`, name `Apple Inc`, weight `0.065`. -/
theorem c1_amended_end_to_end :
    clean_dataframe (some ⟨[("StockTicker", [.str "CASH", .str "AAPL"]),
      ("Security Name", [.str "Cash & Other", .str "Apple Inc"]),
      ("% of Net Assets", [.num 1.2, .num 6.5])]⟩) "XYZ" "2026-10-12"
      = .table ⟨"XYZ", "2026-10-12", [⟨"AAPL", "Apple Inc", some (13/200)⟩]⟩ := by
  with_unfolding_all rfl

/-- C2, counterexample: a mapped block with a `ticker` column but no `name`
column is not returned with a defaulted name — `df["name"].astype(str)` on
line 131 raises `KeyError`, modelled as `.exn`. -/
theorem c2_counterexample :
    clean_dataframe (some ⟨[("ticker", [.str "AAPL"])]⟩) "X" "D" = .exn := by
  decide

/-- C2, amended: the mapper returns a block with at most one column per
canonical name; when no column maps to `ticker` the cleaner signals failure
by returning `None`; when the `weight` column is absent the block is still
returned with every weight defaulted to `0.0`; but when the `name` column
is absent the cleaner raises `KeyError` instead of defaulting the name. -/
theorem c2_amended (df : Frame) (tk dt : String) :
    ((mappedCols df).map Prod.fst).Nodup
    ∧ (hasCol "ticker" (mappedCols df) = false →
        clean_dataframe (some df) tk dt = .failed)
    ∧ (hasCol "weight" (mappedCols df) = false →
        ∀ t, clean_dataframe (some df) tk dt = .table t →
          ∀ r ∈ t.rows, r.weight = some 0)
    ∧ (frameEmpty df = false → hasCol "ticker" (mappedCols df) = true →
        hasCol "name" (mappedCols df) = false →
        clean_dataframe (some df) tk dt = .exn) := by
  refine ⟨?_, ?_, ?_, ?_⟩
  · simpa [mappedCols] using dedupCols_nodup
      (df.cols.map (fun c => (renameLabel (normLabel c.1), c.2)))
  · intro h
    rw [clean_dataframe_some]
    cases he : frameEmpty df with
    | true => simp
    | false =>
      simp only [Bool.false_eq_true, if_false]
      unfold cleanCore
      rw [lookupCol_eq_none_of_hasCol_false h]
  · intro hw t ht r hr
    rw [clean_dataframe_some] at ht
    cases he : frameEmpty df with
    | true => rw [he] at ht; simp at ht
    | false =>
      rw [he] at ht
      simp only [Bool.false_eq_true, if_false] at ht
      unfold cleanCore at ht
      cases hti : lookupCol "ticker" (mappedCols df) with
      | none => rw [hti] at ht; cases ht
      | some tcol =>
        rw [hti] at ht
        cases hn : lookupCol "name" (mappedCols df) with
        | none => rw [hn] at ht; cases ht
        | some ncol =>
          rw [hn, lookupCol_eq_none_of_hasCol_false hw] at ht
          cases ht
          simp only [buildTable] at hr
          obtain ⟨_, _, hweight⟩ := mem_zipRows3 hr
          exact List.eq_of_mem_replicate hweight
  · intro he hti hn
    rw [clean_dataframe_some, he]
    simp only [Bool.false_eq_true, if_false]
    unfold cleanCore
    obtain ⟨v, hv⟩ := lookupCol_isSome_of_hasCol_true hti
    rw [hv, lookupCol_eq_none_of_hasCol_false hn]

/-- C2, witness: the amended contract exercised at concrete blocks — a
block with no ticker-mappable column is rejected with `None`; a block with
`ticker` and `name` but no `weight` yields a row with weight `0.0`; a block
with `ticker` but no `name` raises. -/
theorem c2_witness :
    clean_dataframe (some ⟨[("name", [.str "A"])]⟩) "X" "D" = .failed
    ∧ (⟨"AAPL", "Apple", some 0⟩ : Row).weight = some 0
    ∧ clean_dataframe (some ⟨[("ticker", [.str "AAPL"])]⟩) "X" "D" = .exn := by
  refine ⟨(c2_amended ⟨[("name", [.str "A"])]⟩ "X" "D").2.1 (by decide),
    (c2_amended ⟨[("ticker", [.str "AAPL"]), ("name", [.str "Apple"])]⟩ "X" "D").2.2.1
      (by decide) ⟨"X", "D", [⟨"AAPL", "Apple", some 0⟩]⟩ (by decide)
      ⟨"AAPL", "Apple", some 0⟩ (by decide),
    (c2_amended ⟨[("ticker", [.str "AAPL"])]⟩ "X" "D").2.2.2 (by decide) (by decide)
      (by decide)⟩

/-- C3, counterexample: a row whose weight is the unparsable string
`"abc"` is kept, but its weight becomes the missing-value marker NaN
(`none`), not `0.0` (`pd.to_numeric(errors="coerce")` yields NaN and
nothing ever replaces it). -/
theorem c3_counterexample :
    clean_dataframe (some ⟨[("ticker", [.str "AAPL"]), ("name", [.str "Apple"]),
      ("weight", [.str "abc"])]⟩) "X" "D"
      = .table ⟨"X", "D", [⟨"AAPL", "Apple", none⟩]⟩ := by
  decide

/-- C3, amended: for every kept row whose weight value is a string that
cannot be parsed as a decimal number, the sanitizer keeps the row and sets
its weight to the missing-value marker NaN (`none`); it never raises on an
unparsable weight (the only exception `clean_dataframe` can raise is the
missing-`name` `KeyError`). -/
theorem c3_amended :
    (∀ (tcol ncol wc : List Cell) (tk dt : String) (i : Nat) (s : String),
        tcol.length = ncol.length → wc.length = tcol.length →
        (maskFilter (keepMask (ncol.map cellStr) (tcol.map cellStr)) wc)[i]?
          = some (.str s) →
        parseDecimal (replaceStr (replaceStr s "%" "") "," "") = none →
        ∃ r : Row, (buildTable tcol ncol (some wc) tk dt).rows[i]? = some r
          ∧ r.weight = none)
    ∧ (∀ (df : Frame) (tk dt : String), clean_dataframe (some df) tk dt = .exn →
        hasCol "name" (mappedCols df) = false) := by
  constructor
  · intro tcol ncol wc tk dt i s hlen hwlen hcell hparse
    simp only [buildTable]
    have hw1 : ((maskFilter (keepMask (ncol.map cellStr) (tcol.map cellStr)) wc).map
        parseWeight)[i]? = some none := by
      rw [List.getElem?_map, hcell]
      simp [parseWeight, hparse]
    have hw2 := scaleWeights_getElem?_none hw1
    have hlt : ((maskFilter (keepMask (ncol.map cellStr) (tcol.map cellStr))
        (tcol.map cellStr)).map normTicker).length
        = (scaleWeights ((maskFilter (keepMask (ncol.map cellStr) (tcol.map cellStr))
            wc).map parseWeight)).length := by
      rw [List.length_map, scaleWeights_length, List.length_map]
      exact maskFilter_length_eq (by simp [hwlen])
    have hln : (maskFilter (keepMask (ncol.map cellStr) (tcol.map cellStr))
        (ncol.map cellStr)).length
        = (scaleWeights ((maskFilter (keepMask (ncol.map cellStr) (tcol.map cellStr))
            wc).map parseWeight)).length := by
      rw [scaleWeights_length, List.length_map]
      exact maskFilter_length_eq (by simp [hlen, hwlen])
    obtain ⟨t, n, h⟩ := zipRows3_getElem? _ _ _ i none hlt hln hw2
    exact ⟨⟨t, n, none⟩, h, rfl⟩
  · intro df tk dt h
    rw [clean_dataframe_some] at h
    cases he : frameEmpty df with
    | true => rw [he] at h; simp at h
    | false =>
      rw [he] at h
      simp only [Bool.false_eq_true, if_false] at h
      unfold cleanCore at h
      cases hti : lookupCol "ticker" (mappedCols df) with
      | none => rw [hti] at h; cases h
      | some tcol =>
        rw [hti] at h
        cases hn : lookupCol "name" (mappedCols df) with
        | none => exact hasCol_false_of_lookupCol_none hn
        | some ncol => rw [hn] at h; cases h

/-- C3, witness: the amended statement exercised at a one-row block whose
weight cell is the unparsable string `"abc"`. -/
theorem c3_witness :
    ∃ r : Row, (buildTable [.str "aapl"] [.str "Apple"] (some [.str "abc"])
      "X" "D").rows[0]? = some r ∧ r.weight = none :=
  c3_amended.1 [.str "aapl"] [.str "Apple"] [.str "abc"] "X" "D" 0 "abc"
    (by decide) (by decide) (by decide) (by decide)

/-- C4, counterexample: ticker normalization does not strip a trailing
`" UW"` (`"abc UW"` maps to `"ABC UW"`, not the claimed `"ABC"`), and an
interior `".UN"` is removed rather than left intact (`"x.UNy"` maps to
`"XY"`, not `"X.UNY"`): the replacements are not restricted to trailing
occurrences and no `" UW"` replacement exists in the code. -/
theorem c4_counterexample :
    normTicker "abc UW" = "ABC UW" ∧ "ABC UW" ≠ "ABC"
    ∧ normTicker "x.UNy" = "XY" ∧ "XY" ≠ "X.UNY" := by
  refine ⟨by decide, by decide, by decide, by decide⟩

/-- C4, amended: for every surviving row, the output ticker is exactly the
raw ticker passed through `normTicker`, which replaces every occurrence
(case-sensitively, not only trailing) of `" USD"` and then `".UN"`, handles
no `" UW"` suffix, then upper-cases and trims whitespace; so `"abc UW"`
becomes `"ABC UW"`, a trailing `".UN"` or `" USD"` is removed, interior
occurrences are removed too, and lower-case variants are untouched apart
from casing. -/
theorem c4_amended :
    (∀ (tcol ncol wc : List Cell) (tk dt : String),
        tcol.length = ncol.length → wc.length = tcol.length →
        (buildTable tcol ncol (some wc) tk dt).rows.map Row.ticker
          = (maskFilter (keepMask (ncol.map cellStr) (tcol.map cellStr))
              (tcol.map cellStr)).map normTicker)
    ∧ normTicker "abc UW" = "ABC UW"
    ∧ normTicker "ABC.UN" = "ABC"
    ∧ normTicker "ABC USD" = "ABC"
    ∧ normTicker "A.UNB.UNC" = "ABC"
    ∧ normTicker "  abc usd  " = "ABC USD" := by
  refine ⟨?_, by decide, by decide, by decide, by decide, by decide⟩
  intro tcol ncol wc tk dt hlen hwlen
  simp only [buildTable]
  apply zipRows3_map_ticker
  · rw [List.length_map]
    exact maskFilter_length_eq (by simp [hlen])
  · rw [List.length_map, scaleWeights_length, List.length_map]
    exact maskFilter_length_eq (by simp [hwlen])

/-- C4, witness: the surviving-row equation exercised at a concrete
two-row block (one row is removed by the stop-word filter, the other's
ticker is normalized). -/
theorem c4_witness :
    (buildTable [.str "cash", .str "brk.UN"] [.str "Cash", .str "Berkshire"]
      (some [.num 1, .num 2]) "X" "D").rows.map Row.ticker = ["BRK"] := by
  have h := c4_amended.1 [.str "cash", .str "brk.UN"] [.str "Cash", .str "Berkshire"]
    [.num 1, .num 2] "X" "D" (by decide) (by decide)
  exact h.trans (by decide)

/-- C5, counterexample: `find_first_trust_table` contains no minimum-row
threshold — a single-row candidate whose header holds the keyword
`"ticker"` is returned rather than skipped (the claim, with the spec's
minimum-row threshold of 5-8, requires this candidate to be passed over). -/
theorem c5_counterexample :
    find_first_trust_table [⟨[("ticker", [.str "AAPL"])]⟩]
      = some ⟨[("ticker", [.str "AAPL"])]⟩ := by
  decide

/-- C5, amended: the selector iterates candidates in document order with no
row-count test of any kind: the first candidate whose normalized header
labels contain a keyword from
`{ticker, symbol, holding, identifier, weighting, cusip}` is returned
unchanged (no header promotion and no content modification); a candidate
matching neither by header nor by first data row is skipped; an empty
candidate list yields no result. -/
theorem c5_amended :
    (∀ (df : Frame) (rest : List Frame), headerHasKeyword df = true →
        find_first_trust_table (df :: rest) = some df)
    ∧ (∀ (df : Frame) (rest : List Frame), headerHasKeyword df = false →
        (frameEmpty df = true ∨ firstRowHasKeyword df = false) →
        find_first_trust_table (df :: rest) = find_first_trust_table rest)
    ∧ find_first_trust_table [] = none := by
  refine ⟨?_, ?_, rfl⟩
  · intro df rest h
    simp [find_first_trust_table, h]
  · intro df rest h hskip
    rcases hskip with he | hf
    · simp [find_first_trust_table, h, he]
    · simp [find_first_trust_table, h, hf]

/-- C5, witness: a header-matching candidate is returned unchanged even
with later candidates present, and a keyword-free candidate is skipped in
document order. -/
theorem c5_witness :
    find_first_trust_table [⟨[("Ticker", [.str "AAPL", .str "MSFT"])]⟩, ⟨[]⟩]
      = some ⟨[("Ticker", [.str "AAPL", .str "MSFT"])]⟩
    ∧ find_first_trust_table [⟨[("price", [.str "1"])]⟩]
      = find_first_trust_table [] := by
  exact ⟨c5_amended.1 ⟨[("Ticker", [.str "AAPL", .str "MSFT"])]⟩ [⟨[]⟩] (by decide),
    c5_amended.2.1 ⟨[("price", [.str "1"])]⟩ [] (by decide) (Or.inr (by decide))⟩

/-- C6: the truncated-preview guard of the reconciler, which has no
implementation in `src/` and is modelled from spec §4.5: with a primary
snapshot of 20 rows dated 2026-02-01 and a backup snapshot of 8 rows dated
2026-02-15, the backup is strictly newer but holds at most the preview
threshold of 15 rows while the primary exceeds it, so the primary is kept
and the guard is recorded as the reason. -/
theorem c6_truncated_preview_guard :
    reconcile (some ⟨20, "2026-02-01"⟩) (some ⟨8, "2026-02-15"⟩)
      = some (⟨20, "2026-02-01"⟩, .truncatedPreviewGuard) := by
  with_unfolding_all rfl

/-- C7: weight scaling is a table-wide decision — when the column maximum
(NaN skipped) exceeds 1.0 every value is divided by 100, and when every
present value already lies in [0,1] the rule changes nothing, so the
normalization is idempotent on already-fractional tables. -/
theorem c7_weight_scaling :
    (∀ (ws : List (Option ℚ)) (m : ℚ), maxW ws = some m → 1 < m →
        scaleWeights ws = ws.map (Option.map (fun q => q / 100)))
    ∧ (∀ ws : List (Option ℚ), (∀ q : ℚ, some q ∈ ws → 0 ≤ q ∧ q ≤ 1) →
        scaleWeights ws = ws) := by
  constructor
  · intro ws m hmax hm
    unfold scaleWeights scaleCond
    rw [hmax]
    simp [hm]
  · intro ws hall
    unfold scaleWeights scaleCond
    cases hmax : maxW ws with
    | none => simp
    | some m =>
      have hle : m ≤ 1 := maxW_le_of_all (fun q hq => (hall q hq).2) hmax
      simp [not_lt_of_le hle]

/-- C7, witness: a table with maximum 2.0 is divided through by 100, and a
table whose values lie in [0,1] is left unchanged. -/
theorem c7_witness :
    scaleWeights [some 2, none, some 1] = [some (1/50), none, some (1/100)]
    ∧ scaleWeights [some (1/2), none] = [some (1/2), none] := by
  constructor
  · have h := c7_weight_scaling.1 [some 2, none, some 1] 2 (by decide) (by decide)
    refine h.trans ?_
    norm_num
  · refine c7_weight_scaling.2 [some (1/2), none] ?_
    intro q hq
    have hq2 : q = 1/2 := by simpa using hq
    subst hq2
    norm_num

/-- C8, counterexample: the stop-word filter runs before ticker
normalization, and normalization can manufacture a stop word — the ticker
`"CA.UNSH"` passes the filter (lower-cased `"ca.unsh"` contains no stop
word) but `".UN"`-removal turns it into `"CASH"`, so the sanitizer's output
contains a row whose ticker case-insensitively contains the stop word
`"cash"`. -/
theorem c8_counterexample :
    clean_dataframe (some ⟨[("ticker", [.str "CA.UNSH"]), ("name", [.str "Foo"]),
      ("weight", [.num (1/2)])]⟩) "X" "D"
      = .table ⟨"X", "D", [⟨"CASH", "Foo", some (1/2)⟩]⟩
    ∧ containsStop "CASH" = true := by
  exact ⟨by with_unfolding_all rfl, by decide⟩

/-- C8, amended: the stop-word filter is applied to the pre-normalization
field values — every output row's name is stop-word-free, and every output
row's ticker is the normalization of a raw ticker that was stop-word-free
(normalization itself may reintroduce a stop-word substring); a row is
dropped when either field matches. -/
theorem c8_amended (tcol ncol : List Cell) (wc? : Option (List Cell)) (tk dt : String) :
    ∀ r ∈ (buildTable tcol ncol wc? tk dt).rows,
      containsStop r.name = false
      ∧ ∃ t0, containsStop t0 = false ∧ r.ticker = normTicker t0 := by
  intro r hr
  simp only [buildTable] at hr
  obtain ⟨hticker, hname, _⟩ := mem_zipRows3 hr
  refine ⟨maskFilter_keepMask_name hname, ?_⟩
  obtain ⟨t0, ht0, heq⟩ := List.mem_map.1 hticker
  exact ⟨t0, maskFilter_keepMask_ticker ht0, heq.symm⟩

/-- C8, witness: the amended property exercised at a concrete block whose
surviving row is stop-word-free in both raw fields. -/
theorem c8_witness :
    containsStop "Apple" = false
    ∧ ∃ t0, containsStop t0 = false ∧ "AAPL" = normTicker t0 := by
  have h := c8_amended [.str "aapl", .str "US Cash"] [.str "Apple", .str "Liquidity"]
    none "X" "D" ⟨"AAPL", "Apple", some 0⟩ (by decide)
  simpa using h

/-- C9: a fund whose cleaning yields `None` or a zero-row table is treated
as absent — nothing is persisted to the latest store or the master list for
it, a structured failure entry with the fund ticker, row count 0 and a
failure reason is appended, and the fund loop continues with the remaining
funds. -/
theorem c9_zero_rows_absent (f : FundResult) (s : RunState)
    (h : f.clean = .failed ∨ ∃ t, f.clean = .table t ∧ t.rows = []) :
    (saveStep f s).latest = s.latest
    ∧ (saveStep f s).master = s.master
    ∧ (saveStep f s).failures = s.failures ++ [⟨f.ticker, 0, f.error.getD PARSE_ERROR⟩]
    ∧ ∀ rest, runAll (f :: rest) s = runAll rest (saveStep f s) := by
  rcases h with h | ⟨t, ht, hrows⟩
  · simp [saveStep, h, runAll]
  · simp [saveStep, ht, hrows, runAll]

/-- C9, witness: the absent-fund policy exercised at a concrete failed fund
starting from the empty run state. -/
theorem c9_witness :
    (saveStep ⟨"XFND", .failed, none, 5⟩ ⟨[], [], []⟩).latest = []
    ∧ (saveStep ⟨"XFND", .failed, none, 5⟩ ⟨[], [], []⟩).master = []
    ∧ (saveStep ⟨"XFND", .failed, none, 5⟩ ⟨[], [], []⟩).failures
        = [⟨"XFND", 0, "PARSE_ERROR"⟩] := by
  have h := c9_zero_rows_absent ⟨"XFND", .failed, none, 5⟩ ⟨[], [], []⟩ (Or.inl rfl)
  exact ⟨h.1, h.2.1, by simpa [PARSE_ERROR] using h.2.2.1⟩

/-- C10: a fund whose cleaned table is non-empty but below the quality-gate
threshold gets an `INSUFFICIENT_ROWS` failure entry recorded, yet the
undersized table is still persisted to the latest store and still appended
to the master list — the quality-gate failure does not suppress
persistence. -/
theorem c10_quality_gate_persists (f : FundResult) (s : RunState) (t : CleanTable)
    (hc : f.clean = .table t) (hne : t.rows ≠ []) (hlt : t.rows.length < f.threshold)
    (herr : f.error = none ∨ f.error = some INSUFFICIENT_ROWS) :
    (saveStep f s).failures
      = s.failures ++ [⟨f.ticker, t.rows.length, INSUFFICIENT_ROWS⟩]
    ∧ (saveStep f s).latest = s.latest ++ [(f.ticker, t)]
    ∧ (saveStep f s).master = s.master ++ [t] := by
  have hie : t.rows.isEmpty = false := by
    cases hrows : t.rows with
    | nil => exact absurd hrows hne
    | cons a l => rfl
  rcases herr with h | h <;> simp [saveStep, hc, hie, hlt, h]

/-- C10, witness: the quality gate exercised at a concrete one-row table
against a threshold of 5. -/
theorem c10_witness :
    (saveStep ⟨"XFND", .table ⟨"XFND", "D", [⟨"AAPL", "Apple", some 0⟩]⟩, none, 5⟩
      ⟨[], [], []⟩).failures = [⟨"XFND", 1, "INSUFFICIENT_ROWS"⟩]
    ∧ (saveStep ⟨"XFND", .table ⟨"XFND", "D", [⟨"AAPL", "Apple", some 0⟩]⟩, none, 5⟩
      ⟨[], [], []⟩).master = [⟨"XFND", "D", [⟨"AAPL", "Apple", some 0⟩]⟩] := by
  have h := c10_quality_gate_persists
    ⟨"XFND", .table ⟨"XFND", "D", [⟨"AAPL", "Apple", some 0⟩]⟩, none, 5⟩
    ⟨[], [], []⟩ ⟨"XFND", "D", [⟨"AAPL", "Apple", some 0⟩]⟩ rfl (by decide) (by decide)
    (Or.inl rfl)
  exact ⟨by simpa [INSUFFICIENT_ROWS] using h.1, h.2.2⟩
